import Mathlib

/-!
Shallow embedding of the CAPEX dashboard's data core (src/app.js): the
filter engine (`filtrarDatos`), the KPI aggregation (`calcularKPIs`), the
group-by aggregations (`agruparPorCampoProy`, `agruparPorMes`,
`top10Proyectos`), the status classification used by the ranking table, and
the currency formatter (`fmtUSD`).  Monetary amounts are modelled as `ℚ`,
years as `Int` and months as `Nat`.
-/

set_option maxHeartbeats 1000000

namespace Capex

/-- A mining capital project (one entry of `proyectos` in `capex_data.json`). -/
structure Proyecto where
  id : String
  nombre : String
  area : String
  tipo : String
  estado : String
  region : String
  responsable : String
  deriving DecidableEq

/-- One dated expenditure record (one entry of `registros`). -/
structure Registro where
  id_proyecto : String
  anio : Int
  mes : Nat
  presupuestado : ℚ
  ejecutado : ℚ
  deriving DecidableEq

/-- The six-field filter selection held in `estado.filtros`; the empty string
is the wildcard value. -/
structure Filtros where
  anio : String
  mes : String
  area : String
  tipo : String
  estadoProy : String
  region : String
  deriving DecidableEq

/-- The loaded dataset `estado.datos`. -/
structure Datos where
  proyectos : List Proyecto
  registros : List Registro
  deriving DecidableEq

/-- The result record of `filtrarDatos` (the `proyMap` component is the
separate function `proyMap` below). -/
structure Filtrado where
  registrosFilt : List Registro
  proyectosFilt : List Proyecto
  deriving DecidableEq

/-- The filter selection in which all six fields are the empty string: the
state produced by the clear-all button (src/app.js lines 677–684). -/
def filtrosVacios : Filtros := ⟨"", "", "", "", "", ""⟩

/-- Model of `Object.fromEntries(proyectos.map(p => [p.id, p]))` followed by
property lookup (src/app.js line 143): with duplicate ids the later entry
overwrites the earlier one, hence lookup finds the last matching project. -/
def proyMap (proyectos : List Proyecto) (k : String) : Option Proyecto :=
  proyectos.reverse.find? (fun p => p.id == k)

/-- Longest leading run of decimal digit characters. -/
def leadDigits : List Char → List Char
  | [] => []
  | c :: t => if c.isDigit then c :: leadDigits t else []

/-- Numeric value of a list of decimal digit characters. -/
def digitsVal (l : List Char) : Nat :=
  l.foldl (fun a c => 10 * a + (c.toNat - 48)) 0

/-- Value of the longest leading digit run; `none` when there is none. -/
def parseDigits (l : List Char) : Option Nat :=
  match leadDigits l with
  | [] => none
  | ds => some (digitsVal ds)

/-- Model of JavaScript `parseInt` on a decimal string: an optional sign
followed by the longest prefix of decimal digits, ignoring anything after it;
`none` models the `NaN` result (no digits).  Radix prefixes and leading
whitespace are not modelled: the filter values fed to `parseInt` in
src/app.js are plain decimal strings taken from the dataset. -/
def parseIntJS (s : String) : Option Int :=
  match s.toList with
  | '-' :: t => (parseDigits t).map (fun n => -(n : Int))
  | '+' :: t => (parseDigits t).map (fun n => (n : Int))
  | l => (parseDigits l).map (fun n => (n : Int))

/-- The record predicate of `filtrarDatos` (src/app.js lines 146–159): the
joined project must exist, and each non-empty filter field must match
(`reg.anio !== parseInt(f.anio)` compares a number with a number-or-`NaN`,
modelled as `some reg.anio ≠ parseIntJS f.anio`). -/
def pasaFiltros (f : Filtros) (pm : String → Option Proyecto) (reg : Registro) : Bool :=
  match pm reg.id_proyecto with
  | none => false
  | some proy =>
    if f.anio ≠ "" ∧ some reg.anio ≠ parseIntJS f.anio then false
    else if f.mes ≠ "" ∧ some (reg.mes : Int) ≠ parseIntJS f.mes then false
    else if f.area ≠ "" ∧ proy.area ≠ f.area then false
    else if f.tipo ≠ "" ∧ proy.tipo ≠ f.tipo then false
    else if f.estadoProy ≠ "" ∧ proy.estado ≠ f.estadoProy then false
    else if f.region ≠ "" ∧ proy.region ≠ f.region then false
    else true

/-- Model of `filtrarDatos` (src/app.js lines 138–166).  `[...new Set(xs)]`
is modelled by `List.dedup`; only membership in `idsFiltrados` is consumed
(via `includes`), which deduplication does not change. -/
def filtrarDatos (datos : Datos) (f : Filtros) : Filtrado :=
  let pm := proyMap datos.proyectos
  let registrosFilt := datos.registros.filter (pasaFiltros f pm)
  let idsFiltrados := (registrosFilt.map (fun r => r.id_proyecto)).dedup
  let proyectosFilt := datos.proyectos.filter (fun p => idsFiltrados.contains p.id)
  ⟨registrosFilt, proyectosFilt⟩

theorem registrosFilt_def (datos : Datos) (f : Filtros) :
    (filtrarDatos datos f).registrosFilt
      = datos.registros.filter (pasaFiltros f (proyMap datos.proyectos)) := rfl

theorem proyectosFilt_def (datos : Datos) (f : Filtros) :
    (filtrarDatos datos f).proyectosFilt
      = datos.proyectos.filter (fun p =>
          (((datos.registros.filter (pasaFiltros f (proyMap datos.proyectos))).map
            (fun r => r.id_proyecto)).dedup).contains p.id) := rfl

/-- The KPI record returned by `calcularKPIs`. -/
structure KPIs where
  totalPresupuestado : ℚ
  totalEjecutado : ℚ
  pctEjecucion : ℚ
  activos : Nat
  deriving DecidableEq

/-- Model of `calcularKPIs` (src/app.js lines 171–182). -/
def calcularKPIs (registrosFilt : List Registro) (proyectosFilt : List Proyecto) : KPIs :=
  let totalPresupuestado := registrosFilt.foldl (fun s r => s + r.presupuestado) 0
  let totalEjecutado := registrosFilt.foldl (fun s r => s + r.ejecutado) 0
  let pctEjecucion :=
    if totalPresupuestado > 0 then totalEjecutado / totalPresupuestado * 100 else 0
  let activos := (proyectosFilt.filter (fun p => p.estado == "En ejecución")).length
  ⟨totalPresupuestado, totalEjecutado, pctEjecucion, activos⟩

theorem foldl_add_eq_sum {α : Type} (g : α → ℚ) :
    ∀ (l : List α) (s : ℚ), l.foldl (fun a x => a + g x) s = s + (l.map g).sum := by
  intro l
  induction l with
  | nil => intro s; simp
  | cons x t ih => intro s; simp only [List.foldl_cons, List.map_cons, List.sum_cons, ih]; ring

theorem if_chainFalse {c : Prop} [Decidable c] (b : Bool) :
    ((if c then false else b) = true) ↔ (¬c ∧ b = true) := by
  split_ifs with h <;> simp [h]

theorem pasaFiltros_eq_true_iff (f : Filtros) (pm : String → Option Proyecto) (r : Registro) :
    pasaFiltros f pm r = true ↔
      ∃ p, pm r.id_proyecto = some p ∧
        (f.anio ≠ "" → parseIntJS f.anio = some r.anio) ∧
        (f.mes ≠ "" → parseIntJS f.mes = some (r.mes : Int)) ∧
        (f.area ≠ "" → p.area = f.area) ∧
        (f.tipo ≠ "" → p.tipo = f.tipo) ∧
        (f.estadoProy ≠ "" → p.estado = f.estadoProy) ∧
        (f.region ≠ "" → p.region = f.region) := by
  unfold pasaFiltros
  cases h : pm r.id_proyecto with
  | none => simp
  | some proy =>
    simp only [if_chainFalse]
    constructor
    · rintro ⟨n1, n2, n3, n4, n5, n6, -⟩
      push_neg at n1 n2 n3 n4 n5 n6
      exact ⟨proy, rfl, fun hne => (n1 hne).symm, fun hne => (n2 hne).symm,
        n3, n4, n5, n6⟩
    · rintro ⟨p, hp, ha, hm, har, hat, hae, harg⟩
      obtain rfl : proy = p := by
        injection hp
      refine ⟨?_, ?_, ?_, ?_, ?_, ?_, trivial⟩
      · rintro ⟨hne, hneq⟩; exact hneq (ha hne).symm
      · rintro ⟨hne, hneq⟩; exact hneq (hm hne).symm
      · rintro ⟨hne, hneq⟩; exact hneq (har hne)
      · rintro ⟨hne, hneq⟩; exact hneq (hat hne)
      · rintro ⟨hne, hneq⟩; exact hneq (hae hne)
      · rintro ⟨hne, hneq⟩; exact hneq (harg hne)

/-- Claim C1: filter conjunction correctness.  Every record produced by
`filtrarDatos` belongs to the full record set, joins to a project of the
lookup whose id is its `id_proyecto`, and satisfies every set field of the
selection (`anio`/`mes` against its own fields, `area`/`tipo`/`estado`/
`region` against the joined project); unset (empty-string) fields impose no
constraint, and a record whose `id_proyecto` resolves to no project is
excluded regardless of the selection. -/
theorem filtrar_conjuncion (datos : Datos) (f : Filtros) :
    (∀ r ∈ (filtrarDatos datos f).registrosFilt,
      r ∈ datos.registros ∧
      ∃ p, proyMap datos.proyectos r.id_proyecto = some p ∧
        p ∈ datos.proyectos ∧ p.id = r.id_proyecto ∧
        (f.anio ≠ "" → parseIntJS f.anio = some r.anio) ∧
        (f.mes ≠ "" → parseIntJS f.mes = some (r.mes : Int)) ∧
        (f.area ≠ "" → p.area = f.area) ∧
        (f.tipo ≠ "" → p.tipo = f.tipo) ∧
        (f.estadoProy ≠ "" → p.estado = f.estadoProy) ∧
        (f.region ≠ "" → p.region = f.region)) ∧
    (∀ r ∈ datos.registros, proyMap datos.proyectos r.id_proyecto = none →
      r ∉ (filtrarDatos datos f).registrosFilt) := by
  constructor
  · intro r hr
    rw [registrosFilt_def] at hr
    have hmem := (List.mem_filter.mp hr).1
    have hpass := (List.mem_filter.mp hr).2
    rw [pasaFiltros_eq_true_iff] at hpass
    obtain ⟨p, hp, rest⟩ := hpass
    have hfind := hp
    unfold proyMap at hfind
    have hpmem : p ∈ datos.proyectos :=
      List.mem_reverse.mp (List.mem_of_find?_eq_some hfind)
    have hpid : p.id = r.id_proyecto := by
      have := List.find?_some hfind
      simpa using this
    exact ⟨hmem, p, hp, hpmem, hpid, rest⟩
  · intro r _ hnone hmem
    rw [registrosFilt_def] at hmem
    have hpass := (List.mem_filter.mp hmem).2
    rw [pasaFiltros_eq_true_iff] at hpass
    obtain ⟨p, hp, -⟩ := hpass
    rw [hnone] at hp
    exact Option.noConfusion hp

/-- Concrete project used by the witnesses. -/
def pEj : Proyecto := ⟨"P1", "Planta", "Mina A", "Expansión", "En ejecución", "Norte", "Ana"⟩

/-- Concrete record used by the witnesses. -/
def rEj : Registro := ⟨"P1", 2024, 1, 1000, 900⟩

/-- Concrete dataset used by the witnesses. -/
def datosEj : Datos := ⟨[pEj], [rEj]⟩

/-- Concrete filter selection (year and area set) used by the C1 witness. -/
def filtrosEj : Filtros := ⟨"2024", "", "Mina A", "", "", ""⟩

theorem filtrar_conjuncion_witness :
    rEj ∈ datosEj.registros ∧
      ∃ p, proyMap datosEj.proyectos rEj.id_proyecto = some p ∧
        p ∈ datosEj.proyectos ∧ p.id = rEj.id_proyecto ∧
        (filtrosEj.anio ≠ "" → parseIntJS filtrosEj.anio = some rEj.anio) ∧
        (filtrosEj.mes ≠ "" → parseIntJS filtrosEj.mes = some (rEj.mes : Int)) ∧
        (filtrosEj.area ≠ "" → p.area = filtrosEj.area) ∧
        (filtrosEj.tipo ≠ "" → p.tipo = filtrosEj.tipo) ∧
        (filtrosEj.estadoProy ≠ "" → p.estado = filtrosEj.estadoProy) ∧
        (filtrosEj.region ≠ "" → p.region = filtrosEj.region) :=
  (filtrar_conjuncion datosEj filtrosEj).1 rEj (by decide)

/-- Dataset refuting claim C2 as stated: its only record references a
missing project id, and its only project is referenced by no record. -/
def datosCexC2 : Datos :=
  ⟨[⟨"P1", "Nueva Mina", "Mina A", "Expansión", "En ejecución", "Norte", "Ana"⟩],
   [⟨"P2", 2024, 1, 5, 3⟩]⟩

/-- Counterexample to claim C2 as stated: with every filter field empty,
`filtrarDatos` still drops the record with an unresolvable `id_proyecto` and
the project referenced by no record, so neither output equals the full set. -/
theorem limpiar_cex :
    ¬((filtrarDatos datosCexC2 filtrosVacios).registrosFilt = datosCexC2.registros ∧
      (filtrarDatos datosCexC2 filtrosVacios).proyectosFilt = datosCexC2.proyectos) := by
  decide

/-- Claim C2 (amended): clear-all identity.  When all six filter fields are
empty, and moreover every record's `id_proyecto` resolves in the project
lookup and every project is referenced by at least one record, then
`filtrarDatos` returns the full record set and the full project set. -/
theorem limpiar_identidad (datos : Datos)
    (h1 : ∀ r ∈ datos.registros, (proyMap datos.proyectos r.id_proyecto).isSome = true)
    (h2 : ∀ p ∈ datos.proyectos, ∃ r ∈ datos.registros, r.id_proyecto = p.id) :
    (filtrarDatos datos filtrosVacios).registrosFilt = datos.registros ∧
    (filtrarDatos datos filtrosVacios).proyectosFilt = datos.proyectos := by
  have hreg : (filtrarDatos datos filtrosVacios).registrosFilt = datos.registros := by
    rw [registrosFilt_def]
    apply List.filter_eq_self.mpr
    intro r hr
    rw [pasaFiltros_eq_true_iff]
    obtain ⟨p, hp⟩ := Option.isSome_iff_exists.mp (h1 r hr)
    refine ⟨p, hp, ?_, ?_, ?_, ?_, ?_, ?_⟩ <;> exact fun hne => absurd rfl hne
  rw [registrosFilt_def] at hreg
  refine ⟨by rw [registrosFilt_def]; exact hreg, ?_⟩
  rw [proyectosFilt_def]
  apply List.filter_eq_self.mpr
  intro p hp
  obtain ⟨r, hr, hid⟩ := h2 p hp
  rw [List.contains_eq_any_beq]
  apply List.any_eq_true.mpr
  refine ⟨r.id_proyecto, ?_, by simp [hid]⟩
  rw [List.mem_dedup]
  exact List.mem_map.mpr ⟨r, by rw [hreg]; exact hr, rfl⟩

theorem limpiar_identidad_witness :
    (filtrarDatos datosEj filtrosVacios).registrosFilt = datosEj.registros ∧
    (filtrarDatos datosEj filtrosVacios).proyectosFilt = datosEj.proyectos :=
  limpiar_identidad datosEj (by decide) (by decide)

/-- Claim C8: KPI aggregation consistency.  For every dataset and filter
selection, `totalEjecutado` and `totalPresupuestado` reported by
`calcularKPIs` equal the sums of `ejecutado` resp. `presupuestado` over the
filtered records, and `activos` counts the filtered projects whose `estado`
is "En ejecución". -/
theorem kpis_consistencia (datos : Datos) (f : Filtros) :
    (calcularKPIs (filtrarDatos datos f).registrosFilt
        (filtrarDatos datos f).proyectosFilt).totalEjecutado
      = (((filtrarDatos datos f).registrosFilt).map (fun r => r.ejecutado)).sum ∧
    (calcularKPIs (filtrarDatos datos f).registrosFilt
        (filtrarDatos datos f).proyectosFilt).totalPresupuestado
      = (((filtrarDatos datos f).registrosFilt).map (fun r => r.presupuestado)).sum ∧
    (calcularKPIs (filtrarDatos datos f).registrosFilt
        (filtrarDatos datos f).proyectosFilt).activos
      = ((filtrarDatos datos f).proyectosFilt).countP (fun p => p.estado == "En ejecución") := by
  refine ⟨?_, ?_, ?_⟩
  · simp [calcularKPIs, foldl_add_eq_sum]
  · simp [calcularKPIs, foldl_add_eq_sum]
  · simp [calcularKPIs, List.countP_eq_length_filter]

/-- Per-group accumulator cell: summed budgeted and executed amounts. -/
structure Grupo where
  presupuestado : ℚ
  ejecutado : ℚ
  deriving DecidableEq

/-- One accumulation step of the group-by loops:
`acc[clave].presupuestado += reg.presupuestado; acc[clave].ejecutado += reg.ejecutado`. -/
def pasoGrupo (r : Registro) (g : Grupo) : Grupo :=
  ⟨g.presupuestado + r.presupuestado, g.ejecutado + r.ejecutado⟩

/-- Update of a string-keyed JS object modelled as an association list in
insertion order: an existing key is updated in place, a fresh key is
appended at the end (`if (!acc[clave]) acc[clave] = ini; acc[clave] … += …`). -/
def upsert (k : String) (upd : α → α) (ini : α) : List (String × α) → List (String × α)
  | [] => [(k, upd ini)]
  | (k', v) :: t => if k' = k then (k', upd v) :: t else (k', v) :: upsert k upd ini t

/-- The `const acc = {}; registros.forEach(reg => …)` accumulation pattern
shared by `agruparPorCampoProy`, `agruparPorMes` and `top10Proyectos`. -/
def acumula (key : Registro → String) (ini : Registro → α) (paso : Registro → α → α)
    (regs : List Registro) : List (String × α) :=
  regs.foldl (fun acc r => upsert (key r) (paso r) (ini r) acc) []

/-- Key lookup in the association list (JS `acc[k]`). -/
def buscar (k : String) : List (String × α) → Option α
  | [] => none
  | (k', v) :: t => if k' = k then some v else buscar k t

theorem buscar_upsert (k k' : String) (upd : α → α) (ini : α) (l : List (String × α)) :
    buscar k (upsert k' upd ini l)
      = if k' = k then some (upd ((buscar k l).getD ini)) else buscar k l := by
  induction l with
  | nil =>
    by_cases h : k' = k <;> simp [upsert, buscar, h]
  | cons e t ih =>
    obtain ⟨k'', v⟩ := e
    simp only [upsert]
    by_cases h1 : k'' = k'
    · subst h1
      rw [if_pos rfl]
      by_cases h2 : k'' = k <;> simp [buscar, h2]
    · rw [if_neg h1]
      by_cases h2 : k'' = k
      · subst h2
        have h3 : ¬k' = k'' := fun hh => h1 hh.symm
        simp [buscar, h3]
      · simp only [buscar, if_neg h2, ih]

theorem buscar_foldl (key : Registro → String) (ini : Registro → α) (paso : Registro → α → α) :
    ∀ (regs : List Registro) (acc : List (String × α)) (k : String),
      buscar k (regs.foldl (fun a r => upsert (key r) (paso r) (ini r) a) acc)
        = (regs.filter (fun r => key r == k)).foldl
            (fun ov r => some (paso r (ov.getD (ini r)))) (buscar k acc) := by
  intro regs
  induction regs with
  | nil => intro acc k; rfl
  | cons r t ih =>
    intro acc k
    rw [List.foldl_cons, ih]
    by_cases h : key r = k
    · rw [List.filter_cons_of_pos (by simpa using h), List.foldl_cons, buscar_upsert, if_pos h]
    · rw [List.filter_cons_of_neg (by simpa using h), buscar_upsert, if_neg h]

theorem buscar_acumula (key : Registro → String) (ini : Registro → α) (paso : Registro → α → α)
    (regs : List Registro) (k : String) :
    buscar k (acumula key ini paso regs)
      = (regs.filter (fun r => key r == k)).foldl
          (fun ov r => some (paso r (ov.getD (ini r)))) none := by
  unfold acumula
  rw [buscar_foldl]
  rfl

theorem keys_upsert (k : String) (upd : α → α) (ini : α) (l : List (String × α)) :
    (upsert k upd ini l).map Prod.fst
      = if k ∈ l.map Prod.fst then l.map Prod.fst else l.map Prod.fst ++ [k] := by
  induction l with
  | nil => simp [upsert]
  | cons e t ih =>
    obtain ⟨k'', v⟩ := e
    by_cases h : k'' = k
    · subst h
      simp [upsert]
    · simp only [upsert, if_neg h, List.map_cons, ih, List.mem_cons]
      have hne : ¬k = k'' := fun hh => h hh.symm
      by_cases h2 : k ∈ t.map Prod.fst
      · simp [h2, hne]
      · simp [h2, hne, List.cons_append]

theorem mem_keys_upsert (a k : String) (upd : α → α) (ini : α) (l : List (String × α)) :
    a ∈ (upsert k upd ini l).map Prod.fst ↔ a ∈ l.map Prod.fst ∨ a = k := by
  rw [keys_upsert]
  split_ifs with h
  · exact ⟨Or.inl, fun hh => hh.elim id (fun e => e ▸ h)⟩
  · simp [List.mem_append]

theorem nodup_keys_upsert (k : String) (upd : α → α) (ini : α) (l : List (String × α))
    (h : (l.map Prod.fst).Nodup) : ((upsert k upd ini l).map Prod.fst).Nodup := by
  rw [keys_upsert]
  split_ifs with hm
  · exact h
  · simp [List.nodup_append, h, hm]

theorem nodup_keys_foldl (key : Registro → String) (ini : Registro → α)
    (paso : Registro → α → α) :
    ∀ (regs : List Registro) (acc : List (String × α)), (acc.map Prod.fst).Nodup →
      (((regs.foldl (fun a r => upsert (key r) (paso r) (ini r) a) acc).map Prod.fst).Nodup) := by
  intro regs
  induction regs with
  | nil => intro acc h; exact h
  | cons r t ih => intro acc h; exact ih _ (nodup_keys_upsert _ _ _ _ h)

theorem nodup_keys_acumula (key : Registro → String) (ini : Registro → α)
    (paso : Registro → α → α) (regs : List Registro) :
    ((acumula key ini paso regs).map Prod.fst).Nodup :=
  nodup_keys_foldl key ini paso regs [] (by simp)

theorem mem_keys_foldl (key : Registro → String) (ini : Registro → α)
    (paso : Registro → α → α) :
    ∀ (regs : List Registro) (acc : List (String × α)) (k : String),
      (k ∈ (regs.foldl (fun a r => upsert (key r) (paso r) (ini r) a) acc).map Prod.fst
        ↔ k ∈ acc.map Prod.fst ∨ ∃ r ∈ regs, key r = k) := by
  intro regs
  induction regs with
  | nil => intro acc k; simp
  | cons r t ih =>
    intro acc k
    rw [List.foldl_cons, ih, mem_keys_upsert]
    constructor
    · rintro ((hm | rfl) | ⟨r', hr', rfl⟩)
      · exact Or.inl hm
      · exact Or.inr ⟨r, List.mem_cons_self r t, rfl⟩
      · exact Or.inr ⟨r', List.mem_cons_of_mem r hr', rfl⟩
    · rintro (hm | ⟨r', hr', rfl⟩)
      · exact Or.inl (Or.inl hm)
      · rcases List.mem_cons.mp hr' with rfl | hr''
        · exact Or.inl (Or.inr rfl)
        · exact Or.inr ⟨r', hr'', rfl⟩

theorem mem_keys_acumula (key : Registro → String) (ini : Registro → α)
    (paso : Registro → α → α) (regs : List Registro) (k : String) :
    k ∈ (acumula key ini paso regs).map Prod.fst ↔ ∃ r ∈ regs, key r = k := by
  unfold acumula
  rw [mem_keys_foldl]
  simp

theorem buscar_of_mem_nodup (k : String) (v : α) :
    ∀ l : List (String × α), (l.map Prod.fst).Nodup → (k, v) ∈ l → buscar k l = some v := by
  intro l
  induction l with
  | nil => intro _ h; cases h
  | cons e t ih =>
    obtain ⟨k', v'⟩ := e
    intro hnd hm
    rcases List.mem_cons.mp hm with heq | hm'
    · cases heq
      simp [buscar]
    · simp only [List.map_cons] at hnd
      have hpair := List.nodup_cons.mp hnd
      have hk : k' ≠ k := by
        rintro rfl
        exact hpair.1 (List.mem_map.mpr ⟨(k', v), hm', rfl⟩)
      simp only [buscar, if_neg hk]
      exact ih hpair.2 hm'

theorem foldl_grupo_some (l : List Registro) :
    ∀ g : Grupo,
      l.foldl (fun ov r => some (pasoGrupo r (ov.getD (⟨0, 0⟩ : Grupo)))) (some g)
        = some ⟨g.presupuestado + (l.map (fun r => r.presupuestado)).sum,
                g.ejecutado + (l.map (fun r => r.ejecutado)).sum⟩ := by
  induction l with
  | nil => intro g; simp
  | cons r t ih =>
    intro g
    rw [List.foldl_cons]
    simp only [Option.getD_some]
    rw [ih]
    simp [pasoGrupo, add_assoc]

theorem foldl_grupo_none (l : List Registro) (hl : l ≠ []) :
    l.foldl (fun ov r => some (pasoGrupo r (ov.getD (⟨0, 0⟩ : Grupo)))) none
      = some ⟨(l.map (fun r => r.presupuestado)).sum, (l.map (fun r => r.ejecutado)).sum⟩ := by
  cases l with
  | nil => exact absurd rfl hl
  | cons r t =>
    rw [List.foldl_cons]
    simp only [Option.getD_none]
    rw [foldl_grupo_some]
    simp [pasoGrupo]

theorem buscar_acumula_grupo (key : Registro → String) (regs : List Registro) (k : String)
    (g : Grupo)
    (h : buscar k (acumula key (fun _ => (⟨0, 0⟩ : Grupo)) pasoGrupo regs) = some g) :
    g.presupuestado
      = ((regs.filter (fun r => key r == k)).map (fun r => r.presupuestado)).sum ∧
    g.ejecutado
      = ((regs.filter (fun r => key r == k)).map (fun r => r.ejecutado)).sum := by
  rw [buscar_acumula] at h
  by_cases hf : regs.filter (fun r => key r == k) = []
  · rw [hf] at h
    cases h
  · rw [foldl_grupo_none _ hf] at h
    injection h with h'
    rw [← h']
    exact ⟨rfl, rfl⟩

theorem sum_vals_upsert (sel : Grupo → ℚ) (selr : Registro → ℚ)
    (hsel : ∀ r g, sel (pasoGrupo r g) = sel g + selr r) (hini : sel (⟨0, 0⟩ : Grupo) = 0)
    (k : String) (r : Registro) :
    ∀ l : List (String × Grupo),
      ((upsert k (pasoGrupo r) (⟨0, 0⟩ : Grupo) l).map (fun e => sel e.2)).sum
        = ((l.map (fun e => sel e.2)).sum) + selr r := by
  intro l
  induction l with
  | nil => simp [upsert, hsel, hini]
  | cons e t ih =>
    obtain ⟨k', v⟩ := e
    by_cases h : k' = k
    · subst h
      simp only [upsert, if_true, List.map_cons, List.sum_cons, hsel]
      ring
    · simp only [upsert, if_neg h, List.map_cons, List.sum_cons, ih]
      ring

theorem sum_vals_foldl (sel : Grupo → ℚ) (selr : Registro → ℚ)
    (hsel : ∀ r g, sel (pasoGrupo r g) = sel g + selr r) (hini : sel (⟨0, 0⟩ : Grupo) = 0)
    (key : Registro → String) :
    ∀ (regs : List Registro) (acc : List (String × Grupo)),
      (((regs.foldl (fun a r => upsert (key r) (pasoGrupo r) (⟨0, 0⟩ : Grupo) a) acc).map
          (fun e => sel e.2)).sum)
        = ((acc.map (fun e => sel e.2)).sum) + (regs.map selr).sum := by
  intro regs
  induction regs with
  | nil => intro acc; simp
  | cons r t ih =>
    intro acc
    rw [List.foldl_cons, ih, sum_vals_upsert sel selr hsel hini]
    simp only [List.map_cons, List.sum_cons]
    ring

theorem sum_vals_acumula (sel : Grupo → ℚ) (selr : Registro → ℚ)
    (hsel : ∀ r g, sel (pasoGrupo r g) = sel g + selr r) (hini : sel (⟨0, 0⟩ : Grupo) = 0)
    (key : Registro → String) (regs : List Registro) :
    (((acumula key (fun _ => (⟨0, 0⟩ : Grupo)) pasoGrupo regs).map (fun e => sel e.2)).sum)
      = (regs.map selr).sum := by
  unfold acumula
  rw [sum_vals_foldl sel selr hsel hini]
  simp

/-- The two project attributes actually used for grouping, reframing the
dynamic `proy[campo]` lookup as a closed enumeration (call sites of
`agruparPorCampoProy` pass only 'area' and 'tipo'). -/
inductive Campo where
  | area : Campo
  | tipo : Campo
  deriving DecidableEq

/-- Value of the attribute on a project (`proy[campo]`). -/
def Campo.valor : Campo → Proyecto → String
  | .area, p => p.area
  | .tipo, p => p.tipo

/-- The grouping key of `agruparPorCampoProy` (src/app.js line 235): the
joined project's attribute value, or "N/A" when the record's project is
missing from the lookup. -/
def claveProy (pm : String → Option Proyecto) (campo : Campo) (r : Registro) : String :=
  match pm r.id_proyecto with
  | some p => campo.valor p
  | none => "N/A"

/-- Model of `agruparPorCampoProy` (src/app.js lines 231–241). -/
def agruparPorCampoProy (registrosFilt : List Registro) (pm : String → Option Proyecto)
    (campo : Campo) : List (String × Grupo) :=
  acumula (claveProy pm campo) (fun _ => ⟨0, 0⟩) pasoGrupo registrosFilt

/-- Claim C7: group-by sum with N/A fallback.  `agruparPorCampoProy` groups
each record under its joined project's value of the attribute; each group's
`presupuestado` and `ejecutado` are the independent sums over the records of
that key; a record whose project is missing from the lookup lands in the
explicit "N/A" group instead of being dropped; and the group sums add up to
the totals over all input records, so every record is counted in exactly one
group. -/
theorem agrupar_campo (regs : List Registro) (pm : String → Option Proyecto) (campo : Campo) :
    (∀ k, k ∈ (agruparPorCampoProy regs pm campo).map Prod.fst
        ↔ ∃ r ∈ regs, claveProy pm campo r = k) ∧
    (∀ k g, buscar k (agruparPorCampoProy regs pm campo) = some g →
      g.presupuestado
        = ((regs.filter (fun r => claveProy pm campo r == k)).map
            (fun r => r.presupuestado)).sum ∧
      g.ejecutado
        = ((regs.filter (fun r => claveProy pm campo r == k)).map
            (fun r => r.ejecutado)).sum) ∧
    (∀ r ∈ regs, pm r.id_proyecto = none → claveProy pm campo r = "N/A") ∧
    (((agruparPorCampoProy regs pm campo).map (fun e => e.2.presupuestado)).sum
      = (regs.map (fun r => r.presupuestado)).sum) ∧
    (((agruparPorCampoProy regs pm campo).map (fun e => e.2.ejecutado)).sum
      = (regs.map (fun r => r.ejecutado)).sum) := by
  refine ⟨?_, ?_, ?_, ?_, ?_⟩
  · intro k
    exact mem_keys_acumula _ _ _ _ _
  · intro k g h
    exact buscar_acumula_grupo _ _ _ _ h
  · intro r _ hnone
    simp [claveProy, hnone]
  · exact sum_vals_acumula _ _ (fun _ _ => rfl) rfl _ _
  · exact sum_vals_acumula _ _ (fun _ _ => rfl) rfl _ _

theorem agrupar_campo_witness :
    ((⟨1000, 900⟩ : Grupo)).presupuestado
      = ((([rEj]).filter (fun r => claveProy (proyMap [pEj]) Campo.area r == "Mina A")).map
          (fun r => r.presupuestado)).sum ∧
    ((⟨1000, 900⟩ : Grupo)).ejecutado
      = ((([rEj]).filter (fun r => claveProy (proyMap [pEj]) Campo.area r == "Mina A")).map
          (fun r => r.ejecutado)).sum :=
  (agrupar_campo [rEj] (proyMap [pEj]) Campo.area).2.1 "Mina A" ⟨1000, 900⟩
    (by with_unfolding_all rfl)

/-- A ranking entry of `top10Proyectos`. -/
structure Entrada where
  id : String
  proy : Option Proyecto
  presupuestado : ℚ
  ejecutado : ℚ
  pct : ℚ
  deriving DecidableEq

/-- The descending-by-`ejecutado` comparator `(a, b) => b.ejecutado - a.ejecutado`. -/
def ordenDesc (a b : Entrada) : Prop := b.ejecutado ≤ a.ejecutado

instance : DecidableRel ordenDesc :=
  fun a b => inferInstanceAs (Decidable (b.ejecutado ≤ a.ejecutado))

instance : IsTotal Entrada ordenDesc := ⟨fun a b => le_total b.ejecutado a.ejecutado⟩

instance : IsTrans Entrada ordenDesc := ⟨fun _ _ _ h1 h2 => le_trans h2 h1⟩

/-- Model of `top10Proyectos` (src/app.js lines 256–274): accumulate sums by
`id_proyecto`, build the entries, sort descending by summed `ejecutado` and
keep the first 10. -/
def top10Proyectos (registrosFilt : List Registro) (pm : String → Option Proyecto) :
    List Entrada :=
  let acc := acumula (fun r => r.id_proyecto) (fun _ => (⟨0, 0⟩ : Grupo)) pasoGrupo registrosFilt
  let entradas := acc.map (fun e =>
    (⟨e.1, pm e.1, e.2.presupuestado, e.2.ejecutado,
      if e.2.presupuestado > 0 then e.2.ejecutado / e.2.presupuestado * 100 else 0⟩ : Entrada))
  (List.insertionSort ordenDesc entradas).take 10

/-- The data slice behind the comparison chart:
`top10Proyectos(registrosFilt, proyMap).slice(0, 8)` (src/app.js line 471). -/
def topChartPresupuesto (registrosFilt : List Registro) (pm : String → Option Proyecto) :
    List Entrada :=
  (top10Proyectos registrosFilt pm).take 8

theorem mem_top10_unpack (regs : List Registro) (pm : String → Option Proyecto) (e : Entrada)
    (he : e ∈ top10Proyectos regs pm) :
    ∃ k g,
      e = (⟨k, pm k, g.presupuestado, g.ejecutado,
            if g.presupuestado > 0 then g.ejecutado / g.presupuestado * 100 else 0⟩ : Entrada) ∧
      (k, g) ∈ acumula (fun r => r.id_proyecto) (fun _ => (⟨0, 0⟩ : Grupo)) pasoGrupo regs := by
  have h1 := List.take_subset 10 _ he
  have h2 := (List.perm_insertionSort ordenDesc _).subset h1
  obtain ⟨⟨k, g⟩, hmem, heq⟩ := List.mem_map.mp h2
  exact ⟨k, g, heq.symm, hmem⟩

/-- Claim C4: top-N ranking order and slice.  `top10Proyectos` returns at
most 10 entries, sorted descending by summed `ejecutado`; each entry carries
the per-project sums of `presupuestado` and `ejecutado` over the records of
its `id_proyecto` and the joined project from the lookup; and the 8-entry
chart list is exactly the first 8 entries of that ranking (same ranking,
shorter slice). -/
theorem top10_orden (regs : List Registro) (pm : String → Option Proyecto) :
    (top10Proyectos regs pm).length ≤ 10 ∧
    (top10Proyectos regs pm).Pairwise (fun a b => b.ejecutado ≤ a.ejecutado) ∧
    (∀ e ∈ top10Proyectos regs pm,
      (∃ r ∈ regs, r.id_proyecto = e.id) ∧
      e.proy = pm e.id ∧
      e.presupuestado
        = ((regs.filter (fun r => r.id_proyecto == e.id)).map (fun r => r.presupuestado)).sum ∧
      e.ejecutado
        = ((regs.filter (fun r => r.id_proyecto == e.id)).map (fun r => r.ejecutado)).sum) ∧
    topChartPresupuesto regs pm = (top10Proyectos regs pm).take 8 ∧
    (∃ resto, top10Proyectos regs pm = topChartPresupuesto regs pm ++ resto) := by
  refine ⟨?_, ?_, ?_, rfl, ?_⟩
  · exact List.length_take_le 10 _
  · have hs := List.sorted_insertionSort ordenDesc
      ((acumula (fun r => r.id_proyecto) (fun _ => (⟨0, 0⟩ : Grupo)) pasoGrupo regs).map (fun e =>
        (⟨e.1, pm e.1, e.2.presupuestado, e.2.ejecutado,
          if e.2.presupuestado > 0 then e.2.ejecutado / e.2.presupuestado * 100 else 0⟩ : Entrada)))
    exact List.Pairwise.sublist (List.take_sublist 10 _) hs
  · intro e he
    obtain ⟨k, g, rfl, hmem⟩ := mem_top10_unpack regs pm e he
    have hbuscar : buscar k (acumula (fun r => r.id_proyecto)
        (fun _ => (⟨0, 0⟩ : Grupo)) pasoGrupo regs) = some g :=
      buscar_of_mem_nodup k g _ (nodup_keys_acumula _ _ _ _) hmem
    have hsums := buscar_acumula_grupo _ _ _ _ hbuscar
    have hkmem : k ∈ (acumula (fun r => r.id_proyecto)
        (fun _ => (⟨0, 0⟩ : Grupo)) pasoGrupo regs).map Prod.fst :=
      List.mem_map.mpr ⟨(k, g), hmem, rfl⟩
    have hex := (mem_keys_acumula _ _ _ _ _).mp hkmem
    exact ⟨hex, rfl, hsums.1, hsums.2⟩
  · exact ⟨(top10Proyectos regs pm).drop 8, (List.take_append_drop 8 _).symm⟩

/-- The concrete top-ranking entry for the witness dataset. -/
def entradaEj : Entrada := ⟨"P1", some pEj, 1000, 900, 90⟩

theorem top10_orden_witness :
    (∃ r ∈ [rEj], r.id_proyecto = entradaEj.id) ∧
    entradaEj.proy = proyMap [pEj] entradaEj.id ∧
    entradaEj.presupuestado
      = ((([rEj]).filter (fun r => r.id_proyecto == entradaEj.id)).map
          (fun r => r.presupuestado)).sum ∧
    entradaEj.ejecutado
      = ((([rEj]).filter (fun r => r.id_proyecto == entradaEj.id)).map
          (fun r => r.ejecutado)).sum :=
  (top10_orden [rEj] (proyMap [pEj])).2.2.1 entradaEj (by
    have h : top10Proyectos [rEj] (proyMap [pEj]) = [entradaEj] := by
      with_unfolding_all rfl
    rw [h]
    exact List.mem_cons_self _ _)

/-- Record with a zero budget, used by the C6 witness. -/
def rCero : Registro := ⟨"P1", 2024, 1, 0, 5⟩

/-- Claim C6: division-by-zero totality.  `calcularKPIs` yields
`pctEjecucion = 0` whenever `totalPresupuestado = 0`; every `top10Proyectos`
entry whose summed `presupuestado` is 0 has `pct = 0`; and for a dataset with
no records, the whole pipeline yields the zero KPI record
(`totalPresupuestado = totalEjecutado = pctEjecucion = 0`, `activos = 0`). -/
theorem kpis_sin_nan :
    (∀ (regs : List Registro) (proys : List Proyecto),
      (calcularKPIs regs proys).totalPresupuestado = 0 →
      (calcularKPIs regs proys).pctEjecucion = 0) ∧
    (∀ (regs : List Registro) (pm : String → Option Proyecto),
      ∀ e ∈ top10Proyectos regs pm, e.presupuestado = 0 → e.pct = 0) ∧
    (∀ (proys : List Proyecto) (f : Filtros),
      calcularKPIs (filtrarDatos ⟨proys, []⟩ f).registrosFilt
        (filtrarDatos ⟨proys, []⟩ f).proyectosFilt = ⟨0, 0, 0, 0⟩) := by
  refine ⟨?_, ?_, ?_⟩
  · intro regs proys h
    simp only [calcularKPIs] at h ⊢
    simp [h]
  · intro regs pm e he hp
    obtain ⟨k, g, rfl, -⟩ := mem_top10_unpack regs pm e he
    simp only at hp
    simp [hp]
  · intro proys f
    have h1 : (filtrarDatos ⟨proys, []⟩ f).registrosFilt = [] := rfl
    have h2 : (filtrarDatos ⟨proys, []⟩ f).proyectosFilt = [] := by
      rw [proyectosFilt_def]
      apply List.eq_nil_iff_forall_not_mem.mpr
      intro p hp
      have := (List.mem_filter.mp hp).2
      simp [List.contains_eq_any_beq] at this
    rw [h1, h2]
    with_unfolding_all rfl

/-- The ranking entry with zero budget produced from `rCero`. -/
def entradaCero : Entrada := ⟨"P1", some pEj, 0, 5, 0⟩

theorem kpis_sin_nan_witness :
    (calcularKPIs [] []).pctEjecucion = 0 ∧
    entradaCero.pct = 0 ∧
    calcularKPIs (filtrarDatos ⟨[pEj], []⟩ filtrosVacios).registrosFilt
      (filtrarDatos ⟨[pEj], []⟩ filtrosVacios).proyectosFilt = ⟨0, 0, 0, 0⟩ :=
  ⟨kpis_sin_nan.1 [] [] rfl,
   kpis_sin_nan.2.1 [rCero] (proyMap [pEj]) entradaCero (by
      have h : top10Proyectos [rCero] (proyMap [pEj]) = [entradaCero] := by
        with_unfolding_all rfl
      rw [h]
      exact List.mem_cons_self _ _) rfl,
   kpis_sin_nan.2.2 [pEj] filtrosVacios⟩

/-- The status class of a ranking row (src/app.js lines 556–561):
`sobreEjec = item.ejecutado > item.presupuestado`, then
`pct >= 90 && !sobreEjec ? green : pct < 50 ? red : sobreEjec ? red : yellow`. -/
def progClassDe (item : Entrada) : String :=
  if 90 ≤ item.pct ∧ ¬item.ejecutado > item.presupuestado then "prog-green"
  else if item.pct < 50 then "prog-red"
  else if item.ejecutado > item.presupuestado then "prog-red"
  else "prog-yellow"

/-- Claim C5: status classification.  A ranking entry is classified
"prog-green" iff `pct ≥ 90` and not over-executed, "prog-red" iff
over-executed or `pct < 50` (over-execution overrides the percentage band),
and "prog-yellow" otherwise; in particular the entry with `ejecutado = 120`,
`presupuestado = 100`, `pct = 120` is classified "prog-red". -/
theorem clasificacion_estado :
    (∀ item : Entrada,
      (progClassDe item = "prog-green"
        ↔ (90 ≤ item.pct ∧ ¬item.ejecutado > item.presupuestado)) ∧
      (progClassDe item = "prog-red"
        ↔ (item.ejecutado > item.presupuestado ∨ item.pct < 50)) ∧
      (progClassDe item = "prog-yellow"
        ↔ (¬(90 ≤ item.pct ∧ ¬item.ejecutado > item.presupuestado) ∧
           ¬(item.ejecutado > item.presupuestado ∨ item.pct < 50)))) ∧
    progClassDe ⟨"P", none, 100, 120, 120⟩ = "prog-red" := by
  constructor
  · intro item
    unfold progClassDe
    split_ifs with h1 h2 h3
    · exact ⟨iff_of_true rfl h1,
        iff_of_false (by decide) (by rintro (h | h); exacts [h1.2 h, absurd h1.1 (by linarith)]),
        iff_of_false (by decide) (fun hc => hc.1 h1)⟩
    · exact ⟨iff_of_false (by decide) h1,
        iff_of_true rfl (Or.inr h2),
        iff_of_false (by decide) (fun hc => hc.2 (Or.inr h2))⟩
    · exact ⟨iff_of_false (by decide) h1,
        iff_of_true rfl (Or.inl h3),
        iff_of_false (by decide) (fun hc => hc.2 (Or.inl h3))⟩
    · exact ⟨iff_of_false (by decide) h1,
        iff_of_false (by decide) (by rintro (h | h); exacts [h3 h, h2 h]),
        iff_of_true rfl ⟨h1, by rintro (h | h); exacts [h3 h, h2 h]⟩⟩
  · with_unfolding_all rfl

/-- Month-abbreviation labels, index 1–12 (src/app.js lines 22–23). -/
def MESES_LABELS : List String :=
  ["", "Ene", "Feb", "Mar", "Abr", "May", "Jun", "Jul", "Ago", "Sep", "Oct", "Nov", "Dic"]

/-- The character of a decimal digit. -/
def digitChar (n : Nat) : Char := Char.ofNat (48 + n)

/-- Fuelled little-endian decimal digits (fuel ≥ n + 1 suffices). -/
def digitsRevFuel : Nat → Nat → List Char
  | 0, _ => []
  | fuel + 1, n =>
    if n < 10 then [digitChar n] else digitChar (n % 10) :: digitsRevFuel fuel (n / 10)

/-- Big-endian decimal digit characters of a natural number. -/
def bigEnd (n : Nat) : List Char := (digitsRevFuel (n + 1) n).reverse

/-- Model of JavaScript number-to-string on a non-negative integer. -/
def natStr (n : Nat) : String := ⟨bigEnd n⟩

/-- Model of JavaScript number-to-string on an integer. -/
def intStr (i : Int) : String := if i < 0 then "-" ++ natStr i.natAbs else natStr i.toNat

/-- Model of `String(mes).padStart(2, '0')`. -/
def padStart2 (s : String) : String :=
  if s.length < 2 then String.mk (List.replicate (2 - s.length) '0') ++ s else s

/-- The bucket key of `agruparPorMes` (src/app.js line 247): the template
literal producing `"anio-zeroPaddedMes"`. -/
def mesKey (anio : Int) (mes : Nat) : String :=
  intStr anio ++ "-" ++ padStart2 (natStr mes)

/-- The bucket label (month abbreviation and year); an out-of-range month
index yields JS `undefined`. -/
def etiquetaMes (mes : Nat) (anio : Int) : String :=
  MESES_LABELS.getD mes "undefined" ++ " " ++ intStr anio

theorem digitChar_lt_iff : ∀ a < 10, ∀ b < 10, (digitChar a < digitChar b ↔ a < b) := by
  decide

theorem digitChar_eq_iff : ∀ a < 10, ∀ b < 10, (digitChar a = digitChar b ↔ a = b) := by
  decide

theorem digitsRevFuel_congr :
    ∀ (f₁ f₂ n : Nat), n < f₁ → n < f₂ → digitsRevFuel f₁ n = digitsRevFuel f₂ n := by
  intro f₁
  induction f₁ with
  | zero => intro f₂ n h _; exact absurd h (Nat.not_lt_zero n)
  | succ g ih =>
    intro f₂ n h1 h2
    cases f₂ with
    | zero => exact absurd h2 (Nat.not_lt_zero n)
    | succ g₂ =>
      simp only [digitsRevFuel]
      by_cases hn : n < 10
      · simp [hn]
      · simp only [if_neg hn]
        have hd : n / 10 < n := Nat.div_lt_self (by omega) (by omega)
        rw [ih g₂ (n / 10) (by omega) (by omega)]

theorem bigEnd_lt10 {n : Nat} (h : n < 10) : bigEnd n = [digitChar n] := by
  unfold bigEnd
  simp [digitsRevFuel, h]

theorem bigEnd_ge10 {n : Nat} (h : 10 ≤ n) :
    bigEnd n = bigEnd (n / 10) ++ [digitChar (n % 10)] := by
  unfold bigEnd
  have h1 : digitsRevFuel (n + 1) n = digitChar (n % 10) :: digitsRevFuel n (n / 10) := by
    simp [digitsRevFuel, Nat.not_lt.mpr h]
  have hd : n / 10 < n := Nat.div_lt_self (by omega) (by omega)
  have h2 : digitsRevFuel n (n / 10) = digitsRevFuel (n / 10 + 1) (n / 10) :=
    digitsRevFuel_congr n (n / 10 + 1) (n / 10) (by omega) (by omega)
  rw [h1, h2, List.reverse_cons]

theorem bigEnd4 {y : Nat} (h1 : 1000 ≤ y) (h2 : y ≤ 9999) :
    bigEnd y = [digitChar (y / 1000), digitChar (y / 100 % 10), digitChar (y / 10 % 10),
      digitChar (y % 10)] := by
  rw [bigEnd_ge10 (by omega), bigEnd_ge10 (show 10 ≤ y / 10 by omega),
    bigEnd_ge10 (show 10 ≤ y / 10 / 10 by omega),
    bigEnd_lt10 (show y / 10 / 10 / 10 < 10 by omega)]
  rw [show y / 10 / 10 / 10 = y / 1000 by omega, show y / 10 / 10 = y / 100 by omega]
  simp

theorem lex_cons_iff {a b : Char} {l₁ l₂ : List Char} :
    List.Lex (· < ·) (a :: l₁) (b :: l₂) ↔ a < b ∨ (a = b ∧ List.Lex (· < ·) l₁ l₂) := by
  constructor
  · intro h
    cases h with
    | cons h' => exact Or.inr ⟨rfl, h'⟩
    | rel h' => exact Or.inl h'
  · rintro (h' | ⟨rfl, h'⟩)
    · exact List.Lex.rel h'
    · exact List.Lex.cons h'

theorem lex_append_iff : ∀ (l₁ l₂ r₁ r₂ : List Char), l₁.length = l₂.length →
    (List.Lex (· < ·) (l₁ ++ r₁) (l₂ ++ r₂)
      ↔ List.Lex (· < ·) l₁ l₂ ∨ (l₁ = l₂ ∧ List.Lex (· < ·) r₁ r₂)) := by
  intro l₁
  induction l₁ with
  | nil =>
    intro l₂ r₁ r₂ h
    obtain rfl : l₂ = [] := (List.length_eq_zero.mp h.symm)
    simp only [List.nil_append]
    constructor
    · intro h'
      exact Or.inr ⟨by trivial, h'⟩
    · rintro (h' | ⟨-, h'⟩)
      · exact absurd h' (List.Lex.not_nil_right _ _)
      · exact h'
  | cons a t₁ ih =>
    intro l₂ r₁ r₂ h
    cases l₂ with
    | nil => simp at h
    | cons b t₂ =>
      simp only [List.cons_append]
      rw [lex_cons_iff, lex_cons_iff, ih t₂ r₁ r₂ (by simpa using h)]
      constructor
      · rintro (h' | ⟨rfl, (h' | ⟨rfl, h'⟩)⟩)
        · exact Or.inl (Or.inl h')
        · exact Or.inl (Or.inr ⟨rfl, h'⟩)
        · exact Or.inr ⟨rfl, h'⟩
      · rintro ((h' | ⟨rfl, h'⟩) | ⟨heq, h'⟩)
        · exact Or.inl h'
        · exact Or.inr ⟨rfl, Or.inl h'⟩
        · injection heq with h1 h2
          subst h1
          subst h2
          exact Or.inr ⟨rfl, Or.inr ⟨rfl, h'⟩⟩

theorem lex_nil_nil_iff : List.Lex (· < ·) ([] : List Char) [] ↔ False :=
  iff_false_intro (List.Lex.not_nil_right _ _)

theorem bigEnd4_lex_iff {y₁ y₂ : Nat} (ha : 1000 ≤ y₁) (hb : y₁ ≤ 9999)
    (hc : 1000 ≤ y₂) (hd : y₂ ≤ 9999) :
    (List.Lex (· < ·) (bigEnd y₁) (bigEnd y₂) ↔ y₁ < y₂) := by
  rw [bigEnd4 ha hb, bigEnd4 hc hd]
  rw [lex_cons_iff, lex_cons_iff, lex_cons_iff, lex_cons_iff, lex_nil_nil_iff]
  rw [digitChar_lt_iff _ (by omega) _ (by omega), digitChar_eq_iff _ (by omega) _ (by omega),
    digitChar_lt_iff _ (by omega) _ (by omega), digitChar_eq_iff _ (by omega) _ (by omega),
    digitChar_lt_iff _ (by omega) _ (by omega), digitChar_eq_iff _ (by omega) _ (by omega),
    digitChar_lt_iff _ (by omega) _ (by omega), digitChar_eq_iff _ (by omega) _ (by omega)]
  constructor
  · rintro (h | ⟨h1, h | ⟨h2, h | ⟨h3, h | ⟨h4, hf⟩⟩⟩⟩)
    · omega
    · omega
    · omega
    · omega
    · exact hf.elim
  · intro h
    omega

theorem bigEnd4_eq_iff {y₁ y₂ : Nat} (ha : 1000 ≤ y₁) (hb : y₁ ≤ 9999)
    (hc : 1000 ≤ y₂) (hd : y₂ ≤ 9999) :
    (bigEnd y₁ = bigEnd y₂ ↔ y₁ = y₂) := by
  rw [bigEnd4 ha hb, bigEnd4 hc hd]
  simp only [List.cons.injEq, and_true]
  rw [digitChar_eq_iff _ (by omega) _ (by omega), digitChar_eq_iff _ (by omega) _ (by omega),
    digitChar_eq_iff _ (by omega) _ (by omega), digitChar_eq_iff _ (by omega) _ (by omega)]
  omega

theorem padStart2_natStr {m : Nat} (h : m ≤ 99) :
    (padStart2 (natStr m)).toList = [digitChar (m / 10), digitChar (m % 10)] := by
  by_cases hm : m < 10
  · rw [show natStr m = ⟨[digitChar m]⟩ from by unfold natStr; rw [bigEnd_lt10 hm]]
    unfold padStart2
    have hlen : (String.mk [digitChar m]).length = 1 := rfl
    have hc : (String.mk [digitChar m]).length < 2 := by rw [hlen]; omega
    rw [if_pos hc, hlen]
    rw [show m / 10 = 0 by omega, show m % 10 = m by omega]
    show (String.mk (List.replicate (2 - 1) '0') ++ String.mk [digitChar m]).data = _
    rw [String.data_append]
    rfl
  · have h10 : 10 ≤ m := by omega
    have hbe : bigEnd m = [digitChar (m / 10), digitChar (m % 10)] := by
      rw [bigEnd_ge10 h10, bigEnd_lt10 (show m / 10 < 10 by omega)]
      rfl
    rw [show natStr m = ⟨[digitChar (m / 10), digitChar (m % 10)]⟩ from by
      unfold natStr; rw [hbe]]
    unfold padStart2
    have hlen : (String.mk [digitChar (m / 10), digitChar (m % 10)]).length = 2 := rfl
    have hc : ¬(String.mk [digitChar (m / 10), digitChar (m % 10)]).length < 2 := by
      rw [hlen]
      omega
    rw [if_neg hc]
    rfl

theorem mesKey_toList {y : Int} (hy : 0 ≤ y) (m : Nat) :
    (mesKey y m).toList = bigEnd y.toNat ++ '-' :: (padStart2 (natStr m)).toList := by
  unfold mesKey intStr
  rw [if_neg (by omega)]
  show ((natStr y.toNat ++ "-") ++ padStart2 (natStr m)).data
    = bigEnd y.toNat ++ '-' :: (padStart2 (natStr m)).data
  rw [String.data_append, String.data_append, List.append_assoc]
  rfl

theorem mesKey_lt_iff {y₁ y₂ : Int} {m₁ m₂ : Nat}
    (hy₁ : 1000 ≤ y₁) (hy₁' : y₁ ≤ 9999) (hy₂ : 1000 ≤ y₂) (hy₂' : y₂ ≤ 9999)
    (hm₁ : m₁ ≤ 99) (hm₂ : m₂ ≤ 99) :
    (mesKey y₁ m₁ < mesKey y₂ m₂ ↔ (y₁ < y₂ ∨ (y₁ = y₂ ∧ m₁ < m₂))) := by
  rw [String.lt_iff_toList_lt]
  have hbridge : ((mesKey y₁ m₁).toList < (mesKey y₂ m₂).toList)
      ↔ List.Lex (· < ·) ((mesKey y₁ m₁).toList) ((mesKey y₂ m₂).toList) := Iff.rfl
  rw [hbridge, mesKey_toList (by omega) m₁, mesKey_toList (by omega) m₂,
    padStart2_natStr hm₁, padStart2_natStr hm₂]
  have h1 : 1000 ≤ y₁.toNat := by omega
  have h2 : y₁.toNat ≤ 9999 := by omega
  have h3 : 1000 ≤ y₂.toNat := by omega
  have h4 : y₂.toNat ≤ 9999 := by omega
  rw [lex_append_iff _ _ _ _ (by rw [bigEnd4 h1 h2, bigEnd4 h3 h4]; rfl)]
  rw [bigEnd4_lex_iff h1 h2 h3 h4, bigEnd4_eq_iff h1 h2 h3 h4]
  rw [lex_cons_iff, lex_cons_iff, lex_cons_iff, lex_nil_nil_iff]
  rw [digitChar_lt_iff _ (by omega) _ (by omega), digitChar_eq_iff _ (by omega) _ (by omega),
    digitChar_lt_iff _ (by omega) _ (by omega), digitChar_eq_iff _ (by omega) _ (by omega)]
  simp only [lt_self_iff_false, false_or, eq_self_iff_true, true_and]
  constructor
  · rintro (h | ⟨h1, h | ⟨h2, h | ⟨h3, hf⟩⟩⟩)
    · omega
    · omega
    · omega
    · exact hf.elim
  · rintro (h | ⟨rfl, h⟩)
    · omega
    · omega

theorem mesKey_eq_iff {y₁ y₂ : Int} {m₁ m₂ : Nat}
    (hy₁ : 1000 ≤ y₁) (hy₁' : y₁ ≤ 9999) (hy₂ : 1000 ≤ y₂) (hy₂' : y₂ ≤ 9999)
    (hm₁ : m₁ ≤ 99) (hm₂ : m₂ ≤ 99) :
    (mesKey y₁ m₁ = mesKey y₂ m₂ ↔ (y₁ = y₂ ∧ m₁ = m₂)) := by
  constructor
  · intro h
    rcases lt_trichotomy y₁ y₂ with hy | rfl | hy
    · have := (mesKey_lt_iff hy₁ hy₁' hy₂ hy₂' hm₁ hm₂).mpr (Or.inl hy)
      rw [h] at this
      exact absurd this (lt_irrefl _)
    · rcases lt_trichotomy m₁ m₂ with hmlt | rfl | hmlt
      · have := (mesKey_lt_iff hy₁ hy₁' hy₂ hy₂' hm₁ hm₂).mpr (Or.inr ⟨rfl, hmlt⟩)
        rw [h] at this
        exact absurd this (lt_irrefl _)
      · exact ⟨rfl, rfl⟩
      · have := (mesKey_lt_iff hy₂ hy₂' hy₁ hy₁' hm₂ hm₁).mpr (Or.inr ⟨rfl, hmlt⟩)
        rw [h] at this
        exact absurd this (lt_irrefl _)
    · have := (mesKey_lt_iff hy₂ hy₂' hy₁ hy₁' hm₂ hm₁).mpr (Or.inl hy)
      rw [h] at this
      exact absurd this (lt_irrefl _)
  · rintro ⟨rfl, rfl⟩
    rfl

/-- A time-series bucket of `agruparPorMes`: display label and the two sums. -/
structure BucketMes where
  label : String
  ejecutado : ℚ
  presupuestado : ℚ
  deriving DecidableEq

/-- One accumulation step of `agruparPorMes`:
`acc[key].ejecutado += reg.ejecutado; acc[key].presupuestado += reg.presupuestado`. -/
def pasoMes (r : Registro) (b : BucketMes) : BucketMes :=
  ⟨b.label, b.ejecutado + r.ejecutado, b.presupuestado + r.presupuestado⟩

/-- The fresh bucket `{ label: MESES_LABELS[mes] + " " + anio, ejecutado: 0,
presupuestado: 0 }`. -/
def iniMes (r : Registro) : BucketMes := ⟨etiquetaMes r.mes r.anio, 0, 0⟩

/-- The bucket key of a record. -/
def claveMes (r : Registro) : String := mesKey r.anio r.mes

/-- The ascending-by-key comparator `([a], [b]) => a.localeCompare(b)` of
`agruparPorMes`, with `localeCompare` modelled as the standard lexicographic
order on strings. -/
def ordenMes (a b : String × BucketMes) : Prop := a.1 ≤ b.1

instance : DecidableRel ordenMes := fun a b =>
  decidable_of_iff (¬List.Lex (· < ·) b.1.toList a.1.toList)
    ((not_congr String.lt_iff_toList_lt).symm.trans not_lt)

instance : IsTotal (String × BucketMes) ordenMes := ⟨fun a b => le_total a.1 b.1⟩

instance : IsTrans (String × BucketMes) ordenMes := ⟨fun _ _ _ h1 h2 => le_trans h1 h2⟩

/-- Model of `agruparPorMes` (src/app.js lines 244–253): accumulate per
`"anio-mes"` key, then `Object.entries(acc).sort(([a],[b]) => a.localeCompare(b))`. -/
def agruparPorMes (registrosFilt : List Registro) : List (String × BucketMes) :=
  List.insertionSort ordenMes (acumula claveMes iniMes pasoMes registrosFilt)

theorem foldl_mes_some (l : List Registro) :
    ∀ b : BucketMes,
      l.foldl (fun ov r => some (pasoMes r (ov.getD (iniMes r)))) (some b)
        = some ⟨b.label, b.ejecutado + (l.map (fun r => r.ejecutado)).sum,
                b.presupuestado + (l.map (fun r => r.presupuestado)).sum⟩ := by
  induction l with
  | nil => intro b; simp
  | cons r t ih =>
    intro b
    rw [List.foldl_cons]
    simp only [Option.getD_some]
    rw [ih]
    simp [pasoMes, add_assoc]

theorem buscar_acumula_mes (regs : List Registro) (k : String) (b : BucketMes)
    (h : buscar k (acumula claveMes iniMes pasoMes regs) = some b) :
    b.ejecutado = ((regs.filter (fun r => claveMes r == k)).map (fun r => r.ejecutado)).sum ∧
    b.presupuestado
      = ((regs.filter (fun r => claveMes r == k)).map (fun r => r.presupuestado)).sum := by
  rw [buscar_acumula] at h
  cases hf : regs.filter (fun r => claveMes r == k) with
  | nil => rw [hf] at h; cases h
  | cons r t =>
    rw [hf, List.foldl_cons] at h
    simp only [Option.getD_none] at h
    rw [foldl_mes_some] at h
    injection h with h'
    rw [← h']
    refine ⟨?_, ?_⟩ <;> simp [pasoMes, iniMes]

/-- Claim C3 (amended): monthly time-series ordering.  For records whose
years are four-digit (1000–9999) and whose months lie in 1–12, the buckets
of `agruparPorMes` are strictly ascending by their key, the key order agrees
with the lexicographic order on the `(anio, mes)` pairs of the records
(so buckets are chronological, including across year boundaries), and each
bucket's `ejecutado` and `presupuestado` are the sums over the records of
its year-month pair. -/
theorem agruparPorMes_orden (regs : List Registro)
    (hy : ∀ r ∈ regs, 1000 ≤ r.anio ∧ r.anio ≤ 9999)
    (hm : ∀ r ∈ regs, 1 ≤ r.mes ∧ r.mes ≤ 12) :
    (agruparPorMes regs).Pairwise (fun a b => a.1 < b.1) ∧
    (∀ r₁ ∈ regs, ∀ r₂ ∈ regs,
      (mesKey r₁.anio r₁.mes < mesKey r₂.anio r₂.mes
        ↔ (r₁.anio < r₂.anio ∨ (r₁.anio = r₂.anio ∧ r₁.mes < r₂.mes)))) ∧
    (∀ b ∈ agruparPorMes regs, ∃ y m,
      (∃ r ∈ regs, r.anio = y ∧ r.mes = m) ∧ b.1 = mesKey y m ∧
      b.2.ejecutado = ((regs.filter (fun r => decide (r.anio = y ∧ r.mes = m))).map
          (fun r => r.ejecutado)).sum ∧
      b.2.presupuestado = ((regs.filter (fun r => decide (r.anio = y ∧ r.mes = m))).map
          (fun r => r.presupuestado)).sum) := by
  have hperm := List.perm_insertionSort ordenMes (acumula claveMes iniMes pasoMes regs)
  have hnd : ((acumula claveMes iniMes pasoMes regs).map Prod.fst).Nodup :=
    nodup_keys_acumula _ _ _ _
  refine ⟨?_, ?_, ?_⟩
  · have hnd' : ((agruparPorMes regs).map Prod.fst).Nodup := by
      unfold agruparPorMes
      exact ((hperm.map Prod.fst).nodup_iff).mpr hnd
    have hsorted : (agruparPorMes regs).Pairwise ordenMes :=
      List.sorted_insertionSort ordenMes _
    have hne : (agruparPorMes regs).Pairwise (fun a b => a.1 ≠ b.1) :=
      List.pairwise_map.mp hnd'
    exact (hsorted.and hne).imp (fun h => lt_of_le_of_ne h.1 h.2)
  · intro r₁ hr₁ r₂ hr₂
    exact mesKey_lt_iff (hy r₁ hr₁).1 (hy r₁ hr₁).2 (hy r₂ hr₂).1 (hy r₂ hr₂).2
      (by have := (hm r₁ hr₁).2; omega) (by have := (hm r₂ hr₂).2; omega)
  · intro b hb
    have hbmem : b ∈ acumula claveMes iniMes pasoMes regs := hperm.subset hb
    obtain ⟨k, v⟩ := b
    have hbuscar := buscar_of_mem_nodup k v _ hnd hbmem
    have hsums := buscar_acumula_mes regs k v hbuscar
    have hkmem : k ∈ (acumula claveMes iniMes pasoMes regs).map Prod.fst :=
      List.mem_map.mpr ⟨(k, v), hbmem, rfl⟩
    obtain ⟨r, hr, hkey⟩ := (mem_keys_acumula _ _ _ _ _).mp hkmem
    have hfilter : regs.filter (fun r' => claveMes r' == k)
        = regs.filter (fun r' => decide (r'.anio = r.anio ∧ r'.mes = r.mes)) := by
      apply List.filter_congr
      intro r' hr'
      rw [Bool.eq_iff_iff]
      simp only [beq_iff_eq, decide_eq_true_eq]
      rw [← hkey]
      unfold claveMes
      exact mesKey_eq_iff (hy r' hr').1 (hy r' hr').2 (hy r hr).1 (hy r hr).2
        (by have := (hm r' hr').2; omega) (by have := (hm r hr).2; omega)
    refine ⟨r.anio, r.mes, ⟨r, hr, rfl, rfl⟩, hkey.symm, ?_, ?_⟩
    · rw [← hfilter]
      exact hsums.1
    · rw [← hfilter]
      exact hsums.2

/-- Records whose years have different digit counts: 999 and 1000. -/
def regsCexC3 : List Registro := [⟨"P1", 999, 1, 0, 1⟩, ⟨"P1", 1000, 1, 0, 2⟩]

/-- Counterexample to claim C3 as stated: on records with years 999 and
1000 (month 1 each), the lexicographic key sort places the "1000-01" bucket
(summed ejecutado 2) before the "999-01" bucket (summed ejecutado 1), even
though (999, 1) < (1000, 1), so the bucket sequence is not ascending by the
`(anio, mes)` pair. -/
theorem mes_orden_cex :
    (agruparPorMes regsCexC3).map (fun b => (b.1, b.2.ejecutado))
        = [(mesKey 1000 1, 2), (mesKey 999 1, 1)] ∧ ((999 : Int) < 1000) := by
  constructor
  · with_unfolding_all rfl
  · decide

/-- Records spanning a year boundary, used by the C3 witness. -/
def regsEjC3 : List Registro := [⟨"P1", 2025, 1, 30, 40⟩, ⟨"P1", 2024, 12, 10, 20⟩]

theorem mes_orden_witness :
    (agruparPorMes regsEjC3).Pairwise (fun a b => a.1 < b.1) :=
  (agruparPorMes_orden regsEjC3 (by decide) (by decide)).1

theorem natStr_length_lt10 {m : Nat} (h : m < 10) : (natStr m).length = 1 := by
  unfold natStr
  rw [bigEnd_lt10 h]
  rfl

theorem string_append_assoc (a b c : String) : a ++ b ++ c = a ++ (b ++ c) :=
  String.toList_inj.mp (by
    show ((a ++ b) ++ c).data = (a ++ (b ++ c)).data
    rw [String.data_append, String.data_append, String.data_append, String.data_append,
      List.append_assoc])

/-- Zero-padding of a digit string to `f` characters. -/
def padLeftZeros (f : Nat) (s : String) : String :=
  if s.length < f then String.mk (List.replicate (f - s.length) '0') ++ s else s

/-- Digit rendering of `Number.prototype.toFixed` on a non-negative
rational: round to `f` decimal places (ties pick the larger candidate, per
the ECMAScript algorithm) and render with exactly `f` digits after the
point (no point for `f = 0`). -/
def toFixedNat (f : Nat) (x : ℚ) : String :=
  if f = 0 then natStr (⌊x * 10 ^ f + 1 / 2⌋).toNat
  else natStr ((⌊x * 10 ^ f + 1 / 2⌋).toNat / 10 ^ f) ++ "." ++
    padLeftZeros f (natStr ((⌊x * 10 ^ f + 1 / 2⌋).toNat % 10 ^ f))

/-- Model of `Number.prototype.toFixed`: ECMAScript splits off the sign and
rounds the magnitude. -/
def toFixedJS (f : Nat) (x : ℚ) : String :=
  if x < 0 then "-" ++ toFixedNat f (-x) else toFixedNat f x

/-- Model of `fmtUSD` (src/app.js lines 187–191). -/
def fmtUSD (v : ℚ) : String :=
  if v ≥ 1000000 then "$" ++ toFixedJS 1 (v / 1000000) ++ "M"
  else if v ≥ 1000 then "$" ++ toFixedJS 0 (v / 1000) ++ "K"
  else "$" ++ toFixedJS 0 v

/-- Claim C9: currency formatting.  For `v ≥ 1,000,000` the result is `$`,
the value `v / 1,000,000` rounded to exactly one decimal place (integer part,
point, one digit), and `M`; for `1,000 ≤ v < 1,000,000` it is `$`, the value
`v / 1,000` rounded to an integer, and `K`; below `1,000` it is `$` followed
by `v` rounded to an integer (no suffix). -/
theorem fmtUSD_formato (v : ℚ) :
    (1000000 ≤ v →
      fmtUSD v = "$" ++ natStr ((⌊v / 1000000 * 10 + 1 / 2⌋).toNat / 10) ++ "." ++
          natStr ((⌊v / 1000000 * 10 + 1 / 2⌋).toNat % 10) ++ "M" ∧
      (natStr ((⌊v / 1000000 * 10 + 1 / 2⌋).toNat % 10)).length = 1) ∧
    (1000 ≤ v → v < 1000000 → fmtUSD v = "$" ++ natStr (⌊v / 1000 + 1 / 2⌋).toNat ++ "K") ∧
    (v < 1000 → fmtUSD v = "$" ++ toFixedJS 0 v) ∧
    (0 ≤ v → v < 1000 → fmtUSD v = "$" ++ natStr (⌊v + 1 / 2⌋).toNat) := by
  have hlen1 : ∀ n : Nat, (natStr (n % 10)).length = 1 :=
    fun n => natStr_length_lt10 (Nat.mod_lt n (by omega))
  refine ⟨?_, ?_, ?_, ?_⟩
  · intro h
    have hnneg : ¬v / 1000000 < 0 := not_lt.mpr (by positivity)
    constructor
    · unfold fmtUSD
      rw [if_pos (show v ≥ 1000000 from h)]
      unfold toFixedJS
      rw [if_neg hnneg]
      unfold toFixedNat
      rw [if_neg one_ne_zero]
      rw [show ((10 : ℚ) ^ (1 : Nat)) = 10 from by norm_num, pow_one]
      unfold padLeftZeros
      rw [if_neg (by rw [hlen1]; omega)]
      simp only [string_append_assoc]
    · exact hlen1 _
  · intro h h'
    have hge : ¬v ≥ 1000000 := not_le.mpr h'
    have hnneg : ¬v / 1000 < 0 := not_lt.mpr (by positivity)
    unfold fmtUSD
    rw [if_neg hge, if_pos (show v ≥ 1000 from h)]
    unfold toFixedJS
    rw [if_neg hnneg]
    unfold toFixedNat
    rw [if_pos rfl]
    rw [show ((10 : ℚ) ^ (0 : Nat)) = 1 from by norm_num, mul_one]
  · intro h
    have h1 : ¬v ≥ 1000000 := not_le.mpr (by linarith)
    have h2 : ¬v ≥ 1000 := not_le.mpr h
    unfold fmtUSD
    rw [if_neg h1, if_neg h2]
  · intro h0 h
    have h1 : ¬v ≥ 1000000 := not_le.mpr (by linarith)
    have h2 : ¬v ≥ 1000 := not_le.mpr h
    unfold fmtUSD
    rw [if_neg h1, if_neg h2]
    unfold toFixedJS
    rw [if_neg (not_lt.mpr h0)]
    unfold toFixedNat
    rw [if_pos rfl]
    rw [show ((10 : ℚ) ^ (0 : Nat)) = 1 from by norm_num, mul_one]

theorem fmtUSD_formato_witness :
    fmtUSD 2500000 = "$" ++ natStr ((⌊(2500000 : ℚ) / 1000000 * 10 + 1 / 2⌋).toNat / 10) ++ "." ++
      natStr ((⌊(2500000 : ℚ) / 1000000 * 10 + 1 / 2⌋).toNat % 10) ++ "M" :=
  ((fmtUSD_formato 2500000).1 (by norm_num)).1

/-- Claim C10 (implicit): fmtUSD on negative inputs.  Every negative value
falls through the two signed threshold comparisons to the base branch and is
rendered as `$` immediately followed by the minus sign and the magnitude
rounded to an integer, with no M or K abbreviation; in particular
`fmtUSD (-2500000) = "$-2500000"`. -/
theorem fmtUSD_negativo :
    (∀ v : ℚ, v < 0 → fmtUSD v = "$-" ++ natStr (⌊-v + 1 / 2⌋).toNat) ∧
    fmtUSD (-2500000) = "$-2500000" := by
  constructor
  · intro v hv
    have h1 : ¬v ≥ 1000000 := not_le.mpr (by linarith)
    have h2 : ¬v ≥ 1000 := not_le.mpr (by linarith)
    unfold fmtUSD
    rw [if_neg h1, if_neg h2]
    unfold toFixedJS
    rw [if_pos hv]
    unfold toFixedNat
    rw [if_pos rfl]
    rw [show ((10 : ℚ) ^ (0 : Nat)) = 1 from by norm_num, mul_one]
    rw [← string_append_assoc]
    rfl
  · with_unfolding_all rfl

theorem fmtUSD_negativo_witness :
    fmtUSD (-1) = "$-" ++ natStr (⌊-(-1 : ℚ) + 1 / 2⌋).toNat :=
  fmtUSD_negativo.1 (-1) (by norm_num)

end Capex
